import Mathlib

/-!
Verification of the dataset-generation pipeline in `src/create_dataset.py`
(class `DatasetCreator`).  Strings are modelled as `List Char`; the
filesystem is modelled as an association list from file keys (category ids)
to raw file contents.  Pandas CSV reading and writing are modelled with NA
coercion, quoting, blank-line skipping and per-column dtype inference (the
`EmptyDataError` pandas raises on input with no data rows is not modelled).
-/

deriving instance DecidableEq for Except

namespace CreateDataset

/-- Characters stripped by `message.lstrip('0123456789. ')` in
`format_response`: the decimal digits, the period and the space. -/

def stripChar (c : Char) : Bool :=
  c.isDigit || c == '.' || c == ' '

/-- `message[0].isdigit()` on a possibly empty line: `false` on the empty
line (where the Python code would raise `IndexError` instead). -/

def headDigit : List Char → Bool
  | [] => false
  | c :: _ => c.isDigit

/-- `message.lstrip('0123456789. ')`. -/

def lstripNum (m : List Char) : List Char :=
  m.dropWhile stripChar

/-- Helper for `splitNewlines`.  The flag is `false` while accumulating the
current piece (in reverse) and `true` while skipping a run of newlines. -/

def splitNewlinesAux : Bool → List Char → List Char → List (List Char)
  | false, [], acc => [acc.reverse]
  | false, '\n' :: rest, acc => acc.reverse :: splitNewlinesAux true rest []
  | false, c :: rest, acc => splitNewlinesAux false rest (c :: acc)
  | true, [], _ => [[]]
  | true, '\n' :: rest, acc => splitNewlinesAux true rest acc
  | true, c :: rest, _ => splitNewlinesAux false rest [c]

/-- `re.split('\n+', content)`: split on maximal runs of newline characters.
Empty pieces arise exactly when the content starts or ends with a newline. -/

def splitNewlines (content : List Char) : List (List Char) :=
  splitNewlinesAux false content []

/-- The single failure mode of `format_response`: both `ValueError`s it
raises (wrong count, and wrong format via the bare `except`). -/

inductive FormatError
  | responseFormatError

deriving DecidableEq, Repr

/-- `DatasetCreator.format_response`: split the completion on newline runs;
if there are more lines than `num` keep only the digit-prefixed ones
(the Python list comprehension evaluates `message[0]` and hence raises on
an empty line, which the bare `except` converts into the same
`ValueError`); strip the leading numbering characters; and require the
final count to be exactly `num`. -/

def format_response (num : Nat) (content : List Char) :
    Except FormatError (List (List Char)) :=
  let messages := splitNewlines content
  if num < messages.length then
    if messages.any (fun m => m.isEmpty) then
      .error .responseFormatError
    else
      let ms := (messages.filter headDigit).map lstripNum
      if ms.length = num then .ok ms else .error .responseFormatError
  else
    let ms := messages.map lstripNum
    if ms.length = num then .ok ms else .error .responseFormatError

/-- The line sequence after the conditional digit-prefix filtering step of
`format_response` (the filter only runs when there are more lines than
requested). -/

def filteredMessages (num : Nat) (content : List Char) : List (List Char) :=
  let messages := splitNewlines content
  if num < messages.length then messages.filter headDigit else messages

/-- A well-formed numbered-list line together with its body: one or more
digits, then a period and a space, then a body that is nonempty and does
not itself start with a digit, period or space. -/

def isValidNumberedLine (line body : List Char) : Bool :=
  let ds := line.takeWhile Char.isDigit
  !ds.isEmpty && (line == ds ++ '.' :: ' ' :: body) &&
    (match body with
     | [] => false
     | c :: _ => !stripChar c)

/-! ### Prompt-template parsing (`read_prompt`) -/

/-- Does the content start with the five-equals marker `=====`?  Helper
for the Python membership test `'=====' in content`. -/

def startsWithEqs : List Char → Bool
  | '=' :: '=' :: '=' :: '=' :: '=' :: _ => true
  | _ => false

/-- `'=====' in content`. -/

def containsEqs : List Char → Bool
  | [] => false
  | c :: rest => startsWithEqs (c :: rest) || containsEqs rest

/-- Helper for `splitOnDivider`: scan for non-overlapping occurrences of
the seven-character divider `"\n=====\n"`, left to right, accumulating the
current piece in reverse. -/

def splitDivAux : List Char → List Char → List (List Char)
  | '\n' :: '=' :: '=' :: '=' :: '=' :: '=' :: '\n' :: rest, acc =>
      acc.reverse :: splitDivAux rest []
  | c :: rest, acc => splitDivAux rest (c :: acc)
  | [], acc => [acc.reverse]

/-- `content.split('\n=====\n')`. -/

def splitOnDivider (content : List Char) : List (List Char) :=
  splitDivAux content []

/-- Helper for `splitlines`. -/

def splitlinesAux : List Char → List Char → List (List Char)
  | [], [] => []
  | [], acc => [acc.reverse]
  | '\n' :: rest, acc => acc.reverse :: splitlinesAux rest []
  | c :: rest, acc => splitlinesAux rest (c :: acc)

/-- `content.splitlines()`, with the newline character as the line
boundary (the template files are plain Unix text; the other Unicode line
boundaries Python also recognises are not modelled). -/

def splitlines (content : List Char) : List (List Char) :=
  splitlinesAux content []

/-- The single failure mode of `read_prompt`: the `OSError` its bare
`except` raises when tuple unpacking of the split fails. -/

inductive TemplateError
  | templateFormatError

deriving DecidableEq, Repr

/-- `DatasetCreator.read_prompt` on the file content: if `'====='` occurs
anywhere, split on the full divider `"\n=====\n"` and require exactly two
parts; otherwise require exactly two lines.  Anything else fails. -/

def read_prompt (content : List Char) :
    Except TemplateError (List Char × List Char) :=
  if containsEqs content then
    match splitOnDivider content with
    | [s, u] => .ok (s, u)
    | _ => .error .templateFormatError
  else
    match splitlines content with
    | [s, u] => .ok (s, u)
    | _ => .error .templateFormatError

/-! ### CSV persistence

`generate_bct_messages` writes the per-category table with
`pd.DataFrame(bct_messages).to_csv(..., header=False, index=False)` and
`merge_dataset` reads it back with `pd.read_csv(..., names=['message'])`.
The writer quotes a field iff it contains a delimiter, quote, or line
break (`csv.QUOTE_MINIMAL`), doubling embedded quotes.  The reader skips
blank lines and coerces the default NA tokens to missing values (`NaN`),
modelled as `none`.  The reader then infers the column dtype: a column
whose non-missing values all parse as numbers becomes numeric, and one
whose values are all boolean words becomes boolean — in either case the
values read back are no longer the written strings.  The
`EmptyDataError` pandas raises on input with no data rows at all is not
modelled. -/

/-- The 19 pandas default NA tokens
(`pandas._libs.parsers.STR_NA_VALUES`). -/

def naValues : List (List Char) :=
  ["", "NA", "N/A", "NaN", "nan", "NULL", "null", "None", "n/a",
   "#N/A", "#NA", "#N/A N/A", "<NA>", "-NaN", "-nan",
   "1.#IND", "1.#QNAN", "-1.#IND", "-1.#QNAN"].map String.toList

/-- Does `csv.QUOTE_MINIMAL` quote this field? -/

def needsQuote (m : List Char) : Bool :=
  m.any fun c => c == ',' || c == '\x22' || c == '\n' || c == '\r'

/-- Double every embedded quote character. -/

def escapeQuotes (m : List Char) : List Char :=
  m.flatMap fun c => if c == '\x22' then ['\x22', '\x22'] else [c]

/-- One CSV field as written by `to_csv`. -/

def encodeField (m : List Char) : List Char :=
  if needsQuote m then '\x22' :: (escapeQuotes m ++ ['\x22']) else m

/-- `pd.DataFrame(msgs).to_csv(..., header=False, index=False)`: one
encoded field per line. -/

def writeCSV (msgs : List (List Char)) : List Char :=
  (msgs.map fun m => encodeField m ++ ['\n']).flatten

/-- NA coercion of one parsed field. -/

def mkField (r : List Char) : Option (List Char) :=
  if r ∈ naValues then none else some r

/-- Reader state: outside quotes, inside quotes, or just after a quote
character seen inside a quoted field (which either doubles to a literal
quote or closes the field). -/

inductive RMode
  | plain
  | quoted
  | closed

deriving DecidableEq

/-- Single-column CSV reader loop.  `sawQ` records whether the current
record contained a quote (a quoted empty field is a record, while a fully
blank line is skipped, as `read_csv` does with `skip_blank_lines`).
`acc` is the current field in reverse. -/

def readAux : RMode → Bool → List Char → List Char → List (Option (List Char))
  | _, sawQ, [], acc =>
      if sawQ == false && acc.isEmpty then [] else [mkField acc.reverse]
  | .plain, sawQ, c :: rest, acc =>
      if c == '\x22' then readAux .quoted true rest acc
      else if c == '\n' then
        (if sawQ == false && acc.isEmpty then readAux .plain false rest []
         else mkField acc.reverse :: readAux .plain false rest [])
      else readAux .plain sawQ rest (c :: acc)
  | .quoted, sawQ, c :: rest, acc =>
      if c == '\x22' then readAux .closed sawQ rest acc
      else readAux .quoted sawQ rest (c :: acc)
  | .closed, sawQ, c :: rest, acc =>
      if c == '\x22' then readAux .quoted sawQ rest ('\x22' :: acc)
      else if c == '\n' then mkField acc.reverse :: readAux .plain false rest []
      else readAux .plain sawQ rest (c :: acc)

/-- Whitespace the pandas C tokenizer tolerates around numeric and
boolean fields. -/

def wsChar (c : Char) : Bool :=
  c == ' ' || c == '\t' || c == '\n' || c == '\r'

/-- Strip surrounding whitespace from a field. -/

def trimField (s : List Char) : List Char :=
  ((s.dropWhile wsChar).reverse.dropWhile wsChar).reverse

/-- Drop one optional leading sign. -/

def dropSign : List Char → List Char
  | '+' :: t => t
  | '-' :: t => t
  | t => t

/-- Does the pandas tokenizer possibly parse this field as a number?  A
deliberate superset of the convertible strings (anything built from
digits, point, exponent and sign characters, and the infinity/nan
words): a column containing a field outside this set certainly keeps the
object (string) dtype. -/

def numericLike (s : List Char) : Bool :=
  let t := dropSign (trimField s)
  (!t.isEmpty && t.all fun c =>
      c.isDigit || c == '.' || c == 'e' || c == 'E' || c == '+' || c == '-')
  || decide ((t.map Char.toLower) ∈ (["inf", "infinity", "nan"].map String.toList))

/-- The boolean words the pandas tokenizer recognises when inferring a
bool column. -/

def boolLike (s : List Char) : Bool :=
  decide (trimField s
    ∈ (["True", "TRUE", "true", "False", "FALSE", "false"].map String.toList))

/-- Fields parsed as (arbitrary-precision) integers. -/

def intLike (s : List Char) : Bool :=
  let t := dropSign (trimField s)
  !t.isEmpty && t.all Char.isDigit

def digitsToNat (t : List Char) : Nat :=
  t.foldl (fun a c => a * 10 + (c.toNat - 48)) 0

/-- Canonical rendering of an integer-like field after int64 conversion
(sign and leading zeros normalised; int64 overflow to float64 is not
modelled). -/

def renderInt (s : List Char) : List Char :=
  let t := trimField s
  let neg := match t with
    | '-' :: _ => true
    | _ => false
  let n := digitsToNat (dropSign t)
  if n = 0 then "0".toList
  else if neg then '-' :: (toString n).toList
  else (toString n).toList

/-- Value of a cell in a column converted to a numeric dtype: integers
are re-rendered canonically; for the remaining (float) fields the exact
IEEE parse/format is not modelled and the trimmed text stands in (no
theorem in this file depends on the values in a converted column). -/

def convertNumCell (f : List Char) : List Char :=
  if intLike f then renderInt f else trimField f

/-- Value of a cell in a column converted to bool dtype. -/

def convertBoolCell (f : List Char) : List Char :=
  if trimField f ∈ (["True", "TRUE", "true"].map String.toList)
  then "True".toList else "False".toList

def cellNumericLike : Option (List Char) → Bool
  | none => true
  | some f => numericLike f

def cellBoolLike : Option (List Char) → Bool
  | none => true
  | some f => boolLike f

/-- `pd.read_csv(..., names=['message'])` on a single-column file: the
rows, with NA tokens read as missing (`none`), followed by column dtype
inference — if every non-missing field is numeric-like (resp. a boolean
word), the column converts to a numeric (resp. bool) dtype and the
values are no longer the written strings; otherwise the column keeps
object dtype and the strings are returned as parsed. -/

def read_csv (content : List Char) : List (Option (List Char)) :=
  let fields := readAux .plain false content []
  if fields.all cellNumericLike then fields.map (Option.map convertNumCell)
  else if fields.all cellBoolLike then fields.map (Option.map convertBoolCell)
  else fields

/-! ### The generation loop, retries, and the merger

Category ids (`bcts.No`) are strings; the directory
`./data/<prompt_file>/` is modelled as an association list from category
id to raw file content, updated by prepending.  The completion service is
an oracle giving, per category and per attempt index, either a truncated
response (`finish_reason != 'stop'`, the `GenerationIncomplete` error) or
its text. -/

abbrev CatId := List Char

abbrev Files := List (CatId × List Char)

/-- Association-list lookup by category id. -/

def alookup {α : Type} : List (List Char × α) → List Char → Option α
  | [], _ => none
  | (k, v) :: rest, u => if u = k then some v else alookup rest u

/-- One response of the completion service. -/

inductive GenResult
  | truncated
  | completed (content : List Char)

/-- The failure modes of one `generate_bct_messages` call: a truncated
generation, a malformed response, and the `IndexError` from printing the
first five sample messages. -/

inductive RunError
  | generationIncomplete
  | responseFormatError
  | indexError

deriving DecidableEq, Repr

/-- `pd.DataFrame(...).to_csv('./data/<prompt_file>/<cat>.csv', ...)`. -/

def write_file (files : Files) (cat : CatId) (ctn : List Char) : Files :=
  (cat, ctn) :: files

/-- `DatasetCreator.generate_bct_messages` for one attempt: generate
(possibly truncated), format, persist the per-category CSV, then print
the first five sample messages (an out-of-bounds access when fewer than
five were generated — note the file is already written at that point).
Returns the updated file system and the error, if any. -/

def generate_bct_messages (num : Nat) (cat : CatId) (resp : GenResult)
    (files : Files) : Files × Option RunError :=
  match resp with
  | .truncated => (files, some .generationIncomplete)
  | .completed content =>
      match format_response num content with
      | .error _ => (files, some .responseFormatError)
      | .ok msgs =>
          (write_file files cat (writeCSV msgs),
           if msgs.length < 5 then some .indexError else none)

/-- `retry.api.retry_call(..., tries=n)`: run the attempt at successive
oracle indices `k`; stop at the first success, and after `n` failed
attempts return the last error. -/

def retry_call (num : Nat) (cat : CatId) (resps : Nat → GenResult) :
    Nat → Nat → Files → Files × Option RunError
  | 0, _, files => (files, none)
  | tries + 1, k, files =>
      match generate_bct_messages num cat (resps k) files, tries with
      | (files', none), _ => (files', none)
      | (files', some e), 0 => (files', some e)
      | (files', some _), _ + 1 => retry_call num cat resps tries (k + 1) files'

/-- `DatasetCreator.generate_dataset`: process the categories in taxonomy
order, each with `retry_call(..., tries=3)`; an error after the retries
propagates and aborts the loop. -/

def generate_dataset (num : Nat) (resps : CatId → Nat → GenResult) :
    List CatId → Files → Files × Option RunError
  | [], files => (files, none)
  | cat :: rest, files =>
      match retry_call num cat (resps cat) 3 0 files with
      | (files', none) => generate_dataset num resps rest files'
      | (files', some e) => (files', some e)

/-- The error raised by `merge_dataset` when a per-category file is
missing (`FileNotFoundError` naming the file of that category). -/

inductive MergeError
  | missingCategoryOutput (cat : CatId)

deriving DecidableEq

/-- The row-collection loop of `DatasetCreator.merge_dataset`: for each
category id in taxonomy order, read its per-category file, attach the
category id to every row, and concatenate. -/

def mergeRows (files : Files) :
    List CatId → Except MergeError (List (Option (List Char) × CatId))
  | [] => .ok []
  | cat :: rest =>
      match alookup files cat with
      | none => .error (.missingCategoryOutput cat)
      | some ctn => (mergeRows files rest).map
          fun rs => ((read_csv ctn).map fun m => (m, cat)) ++ rs

/-- `DatasetCreator.merge_dataset`: collect all rows, then
`reset_index(drop=True)` renumbers rows contiguously from zero
(`to_csv` writes that positional index). -/

def merge_dataset (cats : List CatId) (files : Files) :
    Except MergeError (List (Nat × Option (List Char) × CatId)) :=
  (mergeRows files cats).map List.enum

/-! ### Placeholder substitution (`attribute_prompts`)

Python `str.replace(old, new)` replaces the non-overlapping occurrences
of `old` left to right; `attribute_prompts` folds it over the four
placeholder/value pairs in dictionary order, on both prompts. -/

/-- Fuel-indexed scan implementing `str.replace`; the fuel bounds the
number of characters still to be inspected. -/

def replFuel (old new : List Char) : Nat → List Char → List Char
  | _, [] => []
  | 0, s => s
  | fuel + 1, c :: rest =>
      if old ≠ [] ∧ old <+: (c :: rest) then
        new ++ replFuel old new fuel ((c :: rest).drop old.length)
      else c :: replFuel old new fuel rest

/-- Python `content.replace(old, new)` for a nonempty `old`: replace the
non-overlapping occurrences of `old`, scanning left to right. -/

def pyReplace (old new s : List Char) : List Char :=
  replFuel old new s.length s

/-! Brace-delimited placeholder tokens and decompositions. -/

def braceFree (s : List Char) : Bool :=
  s.all fun c => !(c == '\x7b') && !(c == '\x7d')

def braceToken (t : List Char) : Prop :=
  ∃ mid, braceFree mid = true ∧ t = '\x7b' :: mid ++ ['\x7d']

/-! Decompositions of a prompt into brace-free segments and tokens. -/

inductive Chunk
  | seg (s : List Char)
  | tok (t : List Char)

deriving DecidableEq

def Chunk.flat : Chunk → List Char
  | .seg s => s
  | .tok t => t

def flattenChunks (d : List Chunk) : List Char :=
  (d.map Chunk.flat).flatten

def chunkGood (tokens : List (List Char)) : Chunk → Bool
  | .seg s => decide ('\x7b' ∉ s)
  | .tok t => decide (t ∈ tokens)

def goodChunks (tokens : List (List Char)) (d : List Chunk) : Prop :=
  ∀ ch ∈ d, chunkGood tokens ch = true

instance (tokens : List (List Char)) (d : List Chunk) :
    Decidable (goodChunks tokens d) :=
  inferInstanceAs (Decidable (∀ ch ∈ d, chunkGood tokens ch = true))

def substChunk (t v : List Char) : Chunk → Chunk
  | .seg s => .seg s
  | .tok u => if u = t then .seg v else .tok u

def substituteAll (attrs : List (List Char × List Char)) (s : List Char) : List Char :=
  attrs.foldl (fun t p => pyReplace p.1 p.2 t) s

def substitutePrompts (attrs : List (List Char × List Char))
    (p : List Char × List Char) : List Char × List Char :=
  (substituteAll attrs p.1, substituteAll attrs p.2)

def applyChunks (attrs : List (List Char × List Char)) (d : List Chunk) : List Chunk :=
  attrs.foldl (fun d p => d.map (substChunk p.1 p.2)) d

def chunkSubstAll (attrs : List (List Char × List Char)) (ch : Chunk) : Chunk :=
  attrs.foldl (fun ch p => substChunk p.1 p.2 ch) ch

def resolveChunk (attrs : List (List Char × List Char)) : Chunk → Chunk
  | .seg s => .seg s
  | .tok u =>
      match alookup attrs u with
      | some v => .seg v
      | none => .tok u

/-- `DatasetCreator.attribute_prompts`: fill the four templated fields
(message count, label, definition, examples) into the prompt pair, in
dictionary order. -/

def attribute_prompts (num : Nat) (label defn exmp : List Char)
    (prompts : List Char × List Char) : List Char × List Char :=
  substitutePrompts
    [("{num_messages}".toList, (toString num).toList),
     ("{bct_label}".toList, label),
     ("{bct_definition}".toList, defn),
     ("{bct_examples}".toList, exmp)] prompts

lemma dropWhile_append_of_all {p : Char → Bool} {pre rest : List Char}
    (h : ∀ c ∈ pre, p c = true) :
    List.dropWhile p (pre ++ rest) = List.dropWhile p rest := by
  induction pre with
  | nil => rfl
  | cons c pre ih =>
      have hc : p c = true := h c (by simp)
      have ih' := ih fun d hd => h d (by simp [hd])
      simp [List.dropWhile_cons, hc, ih']

lemma lstripNum_of_valid {line body : List Char}
    (h : isValidNumberedLine line body = true) : lstripNum line = body := by
  unfold isValidNumberedLine at h
  cases body with
  | nil => simp [Bool.and_eq_true] at h
  | cons b rest =>
      simp only [Bool.and_eq_true, beq_iff_eq, Bool.not_eq_true'] at h
      obtain ⟨⟨hds, hline⟩, hbody⟩ := h
      have hpre : ∀ c ∈ List.takeWhile Char.isDigit line, stripChar c = true := by
        intro c hc
        have hd : c.isDigit = true := List.mem_takeWhile_imp hc
        simp [stripChar, hd]
      have hdot : stripChar '.' = true := by decide
      have hsp : stripChar ' ' = true := by decide
      unfold lstripNum
      rw [hline, dropWhile_append_of_all hpre]
      simp [List.dropWhile_cons, hdot, hsp, hbody]

lemma map_lstrip_eq_of_zip {ls bs : List (List Char)}
    (hlen : ls.length = bs.length)
    (h : ∀ p ∈ ls.zip bs, isValidNumberedLine p.1 p.2 = true) :
    ls.map lstripNum = bs := by
  induction ls generalizing bs with
  | nil => cases bs with
      | nil => rfl
      | cons b bs => simp at hlen
  | cons l ls ih =>
      cases bs with
      | nil => simp at hlen
      | cons b bs =>
          simp only [List.map_cons, List.cons.injEq]
          constructor
          · exact lstripNum_of_valid (h (l, b) (by simp [List.zip_cons_cons]))
          · exact ih (by simpa using hlen)
              fun p hp => h p (by simp [List.zip_cons_cons, hp])

/-- Claim C1: for every completion that splits into exactly `num` lines,
each a valid numbered-list line with body `bodies[i]`, `format_response`
succeeds and returns exactly the `num` bodies (the lines with their
leading numbering prefix removed), in the order of the input lines. -/

theorem format_response_valid_numbered_list (num : Nat) (content : List Char)
    (bodies : List (List Char))
    (hlen : (splitNewlines content).length = bodies.length)
    (hnum : bodies.length = num)
    (h : ∀ p ∈ (splitNewlines content).zip bodies,
      isValidNumberedLine p.1 p.2 = true) :
    format_response num content = .ok bodies := by
  have hmap : (splitNewlines content).map lstripNum = bodies :=
    map_lstrip_eq_of_zip hlen h
  have hlt : ¬ num < (splitNewlines content).length := by omega
  unfold format_response
  rw [if_neg hlt, hmap, if_pos hnum]

/-- Witness for C1 at scenario B of the spec. -/

theorem format_response_valid_numbered_list_witness :
    format_response 3 ("1. Eat slowly\n2. Drink water\n3. Walk daily".toList)
      = .ok ["Eat slowly".toList, "Drink water".toList, "Walk daily".toList] :=
  format_response_valid_numbered_list 3 _ _ (by decide) (by decide) (by decide)

/-- Counterexample to C2 as stated: this completion splits into three
lines (the leading newline produces an empty first line), more than the
requested two, and exactly two of the lines begin with a digit; yet
`format_response` raises instead of returning the two digit-prefixed lines
(the list comprehension evaluates `message[0]` on the empty line). -/

theorem format_response_digit_filter_cex :
    (2 < (splitNewlines ("\n1. a\n2. b".toList)).length
      ∧ ((splitNewlines ("\n1. a\n2. b".toList)).filter headDigit).length = 2)
      ∧ format_response 2 ("\n1. a\n2. b".toList) = .error .responseFormatError := by
  decide

/-- Claim C2 as amended: for every completion that splits into more than
`num` lines, none of them empty, of which exactly `num` begin with a
digit, `format_response` succeeds and returns exactly the digit-prefixed
lines with their numbering stripped, discarding all other lines. -/

theorem format_response_digit_filter (num : Nat) (content : List Char)
    (hlen : num < (splitNewlines content).length)
    (hne : ∀ m ∈ splitNewlines content, m ≠ [])
    (hcnt : ((splitNewlines content).filter headDigit).length = num) :
    format_response num content
      = .ok (((splitNewlines content).filter headDigit).map lstripNum) := by
  have hempty : (splitNewlines content).any (fun m => m.isEmpty) = false := by
    simp only [List.any_eq_false, List.isEmpty_iff]
    exact hne
  unfold format_response
  rw [if_pos hlen, hempty]
  simp only [Bool.false_eq_true, if_false]
  rw [if_pos (by simpa using hcnt)]

/-- Witness for amended C2 at scenario C of the spec: a commentary line
without a leading digit is discarded. -/

theorem format_response_digit_filter_witness :
    format_response 3 ("Sure! Here you go:\n1. Eat slowly\n2. Drink water\n3. Walk daily".toList)
      = .ok [ "Eat slowly".toList, "Drink water".toList, "Walk daily".toList] := by
  have h := format_response_digit_filter 3
    ("Sure! Here you go:\n1. Eat slowly\n2. Drink water\n3. Walk daily".toList)
    (by decide) (by decide) (by decide)
  exact h.trans (by decide)

/-- Claim C3: whenever the line count after the digit-prefix filtering
step differs from `num`, `format_response` fails with the
response-format error. -/

theorem format_response_wrong_count (num : Nat) (content : List Char)
    (h : (filteredMessages num content).length ≠ num) :
    format_response num content = .error .responseFormatError := by
  unfold filteredMessages at h
  unfold format_response
  by_cases hlt : num < (splitNewlines content).length
  · rw [if_pos hlt] at h ⊢
    by_cases hempty : (splitNewlines content).any (fun m => m.isEmpty)
    · rw [hempty]
      simp
    · simp only [Bool.not_eq_true] at hempty
      rw [hempty]
      simp only [Bool.false_eq_true, if_false]
      rw [if_neg (by simpa using h)]
  · rw [if_neg hlt] at h ⊢
    rw [if_neg (by simpa using h)]

/-- Witness for C3: two well-formed lines where three were requested. -/

theorem format_response_wrong_count_witness :
    (filteredMessages 3 ("1. a\n2. b".toList)).length ≠ 3
      ∧ format_response 3 ("1. a\n2. b".toList) = .error .responseFormatError :=
  ⟨by decide, format_response_wrong_count 3 _ (by decide)⟩

lemma splitDivAux_two_eqs (s acc : List Char)
    (h : 2 ≤ (splitDivAux s acc).length) : containsEqs s = true := by
  induction s, acc using splitDivAux.induct with
  | case1 rest acc ih => simp [containsEqs, startsWithEqs]
  | case2 c rest acc hne ih =>
      rw [splitDivAux] at h
      · have := ih h
        simp [containsEqs, this]
      · exact hne
  | case3 acc => simp [splitDivAux] at h

lemma splitOnDivider_pair_eqs {content s u : List Char}
    (h : splitOnDivider content = [s, u]) : containsEqs content = true :=
  splitDivAux_two_eqs content []
    (by rw [show splitDivAux content [] = [s, u] from h]; simp)

/-- Claim C7: `read_prompt` accepts exactly two content shapes — a
two-part document separated by the divider, or, when no divider marker is
present, exactly two lines (system then user) — returning the
`(system_prompt, user_prompt)` pair in those cases, and it fails with the
template-format error for every other content. -/

theorem read_prompt_two_shapes (content s u : List Char) :
    read_prompt content = .ok (s, u)
      ↔ (splitOnDivider content = [s, u]
         ∨ (containsEqs content = false ∧ splitlines content = [s, u])) := by
  by_cases hc : containsEqs content = true
  · rcases hsplit : splitOnDivider content with _ | ⟨a, _ | ⟨b, _ | ⟨c, tl⟩⟩⟩ <;>
      simp [read_prompt, hc, hsplit]
  · simp only [Bool.not_eq_true] at hc
    rcases hsplit : splitlines content with _ | ⟨a, _ | ⟨b, _ | ⟨c, tl⟩⟩⟩ <;>
      simp [read_prompt, hc, hsplit] <;>
      · intro hdiv
        exact absurd (splitOnDivider_pair_eqs hdiv) (by simp [hc])

lemma scanPlain (m : List Char) (sawQ : Bool) :
    ∀ (tail acc : List Char), (∀ c ∈ m, (c == '\x22') = false ∧ (c == '\n') = false) →
    readAux .plain sawQ (m ++ tail) acc = readAux .plain sawQ tail (m.reverse ++ acc) := by
  induction m with
  | nil => intro tail acc h; simp
  | cons c m ih =>
      intro tail acc h
      have hc := h c (by simp)
      rw [List.cons_append]
      simp only [readAux, hc.1, hc.2, Bool.false_eq_true, if_false]
      rw [ih tail (c :: acc) (fun d hd => h d (by simp [hd]))]
      simp

lemma scanQuoted (m : List Char) (sawQ : Bool) :
    ∀ (tail acc : List Char),
    readAux .quoted sawQ (escapeQuotes m ++ tail) acc
      = readAux .quoted sawQ tail (m.reverse ++ acc) := by
  induction m with
  | nil => intro tail acc; simp [escapeQuotes]
  | cons c m ih =>
      intro tail acc
      by_cases hc : c = '\x22'
      · subst hc
        have he : escapeQuotes ('\x22' :: m) = '\x22' :: '\x22' :: escapeQuotes m := by
          simp [escapeQuotes]
        rw [he, List.cons_append, List.cons_append]
        simp only [readAux, beq_self_eq_true, if_true]
        rw [ih tail ('\x22' :: acc)]
        simp
      · have he : escapeQuotes (c :: m) = c :: escapeQuotes m := by
          simp [escapeQuotes, hc]
        have hcb : (c == '\x22') = false := by simp [hc]
        rw [he, List.cons_append]
        simp only [readAux, hcb, Bool.false_eq_true, if_false]
        rw [ih tail (c :: acc)]
        simp

lemma consume_encode (m tail : List Char) (hm : m ≠ []) :
    readAux .plain false (encodeField m ++ '\n' :: tail) []
      = mkField m :: readAux .plain false tail [] := by
  by_cases hq : needsQuote m = true
  · rw [encodeField, if_pos hq, List.cons_append]
    simp only [readAux, beq_self_eq_true, if_true]
    rw [List.append_assoc]
    simp only [List.singleton_append]
    rw [scanQuoted m true ('\x22' :: '\n' :: tail) []]
    simp only [readAux, beq_self_eq_true, if_true]
    have h1 : (('\n' : Char) == '\x22') = false := by decide
    have h2 : (('\n' : Char) == '\n') = true := by decide
    simp only [readAux, h1, h2, Bool.false_eq_true, if_false, if_true]
    simp
  · rw [encodeField, if_neg hq]
    have hchars : ∀ c ∈ m, (c == '\x22') = false ∧ (c == '\n') = false := by
      intro c hcm
      have hna : ¬ (c == ',' || c == '\x22' || c == '\n' || c == '\r') = true := by
        intro hcon
        exact hq (List.any_eq_true.mpr ⟨c, hcm, hcon⟩)
      simp only [Bool.or_eq_true] at hna
      push_neg at hna
      constructor <;> simp_all
    rw [scanPlain m false ('\n' :: tail) [] hchars]
    have h1 : (('\n' : Char) == '\x22') = false := by decide
    have h2 : (('\n' : Char) == '\n') = true := by decide
    have hrev : (m.reverse ++ ([] : List Char)).isEmpty = false := by
      simp [List.isEmpty_iff, hm]
    simp only [readAux, h1, h2, Bool.false_eq_true, if_false, if_true, hrev,
      Bool.and_false, Bool.false_eq_true]
    simp

/-- Counterexample to C9 as stated: writing the single message `NaN` and
reading the file back does not yield the same string — the reader coerces
it to a missing value. -/

theorem csv_roundtrip_cex :
    read_csv (writeCSV ["NaN".toList]) ≠ ["NaN".toList].map some := by
  decide

lemma readAux_writeCSV (msgs : List (List Char)) (h : ∀ m ∈ msgs, m ∉ naValues) :
    readAux .plain false (writeCSV msgs) [] = msgs.map some := by
  induction msgs with
  | nil => rfl
  | cons m rest ih =>
      have hm : m ∉ naValues := h m (by simp)
      have hmne : m ≠ [] := by
        intro he
        exact hm (by rw [he]; simp [naValues])
      have hw : writeCSV (m :: rest) = encodeField m ++ '\n' :: writeCSV rest := by
        simp [writeCSV]
      rw [hw, consume_encode m _ hmne]
      have hmk : mkField m = some m := by simp [mkField, hm]
      rw [hmk]
      simp only [List.map_cons]
      rw [ih fun d hd => h d (by simp [hd])]

/-- Claim C9 as amended: for every list of K message strings none of
which is an NA token recognised by the reader (including the empty
string), at least one of which is neither numeric-like nor a boolean
word (so the column keeps its string dtype), writing the per-category
table and reading it back yields the same K strings in the same
order. -/

theorem csv_roundtrip (msgs : List (List Char))
    (hna : ∀ m ∈ msgs, m ∉ naValues)
    (hobj : ∃ m ∈ msgs, numericLike m = false ∧ boolLike m = false) :
    read_csv (writeCSV msgs) = msgs.map some := by
  have hraw := readAux_writeCSV msgs hna
  obtain ⟨m0, hm0, hnum, hbool⟩ := hobj
  have h1 : (readAux .plain false (writeCSV msgs) []).all cellNumericLike = false := by
    rw [List.all_eq_false]
    exact ⟨some m0, by rw [hraw]; exact List.mem_map.mpr ⟨m0, hm0, rfl⟩,
      by simpa [cellNumericLike] using hnum⟩
  have h2 : (readAux .plain false (writeCSV msgs) []).all cellBoolLike = false := by
    rw [List.all_eq_false]
    exact ⟨some m0, by rw [hraw]; exact List.mem_map.mpr ⟨m0, hm0, rfl⟩,
      by simpa [cellBoolLike] using hbool⟩
  rw [read_csv, h1, h2]
  simp [hraw]

/-- Witness for amended C9, with a plain field, a field needing quoting
and a field with embedded quotes. -/

theorem csv_roundtrip_witness :
    read_csv (writeCSV ["Eat slowly".toList, "a,b\nc".toList, "say \x22hi\x22".toList])
      = ["Eat slowly".toList, "a,b\nc".toList, "say \x22hi\x22".toList].map some :=
  csv_roundtrip _ (by decide)
    ⟨"Eat slowly".toList, by decide, by decide, by decide⟩

lemma generate_bct_messages_files_eq (num : Nat) (cat : CatId) (resp : GenResult)
    (files : Files) (e : RunError)
    (h : (generate_bct_messages num cat resp files).2 = some e)
    (he : e = .generationIncomplete ∨ e = .responseFormatError) :
    (generate_bct_messages num cat resp files).1 = files := by
  cases resp with
  | truncated => rfl
  | completed content =>
      simp only [generate_bct_messages] at h ⊢
      cases hfr : format_response num content with
      | error err => rfl
      | ok msgs =>
          rw [hfr] at h
          have h2 : (if msgs.length < 5 then some RunError.indexError else none)
              = some e := h
          by_cases hlen : msgs.length < 5
          · rw [if_pos hlen] at h2
            injection h2 with h3
            rcases he with h1 | h1 <;> rw [h1] at h3 <;> exact absurd h3 (by simp)
          · rw [if_neg hlen] at h2
            exact absurd h2 (by simp)

lemma generate_dataset_append (num : Nat) (resps : CatId → Nat → GenResult)
    (xs : List CatId) :
    ∀ (ys : List CatId) (files : Files),
    generate_dataset num resps (xs ++ ys) files
      = match generate_dataset num resps xs files with
        | (f, none) => generate_dataset num resps ys f
        | (f, some e) => (f, some e) := by
  induction xs with
  | nil => intro ys files; simp [generate_dataset]
  | cons c xs ih =>
      intro ys files
      rw [List.cons_append, generate_dataset, generate_dataset]
      cases hr : retry_call num c (resps c) 3 0 files with
      | mk f o =>
          cases o with
          | none => exact ih ys f
          | some e => rfl

lemma retry_call_three_fail (num : Nat) (cat : CatId) (resps : Nat → GenResult)
    (files : Files) (e0 e1 e2 : RunError)
    (hg0 : generate_bct_messages num cat (resps 0) files = (files, some e0))
    (hg1 : generate_bct_messages num cat (resps 1) files = (files, some e1))
    (hg2 : generate_bct_messages num cat (resps 2) files = (files, some e2)) :
    retry_call num cat resps 3 0 files = (files, some e2) := by
  have s3 : retry_call num cat resps 3 0 files
      = match generate_bct_messages num cat (resps 0) files, (2 : Nat) with
        | (files', none), _ => (files', none)
        | (files', some e), 0 => (files', some e)
        | (files', some _), _ + 1 => retry_call num cat resps 2 1 files' := rfl
  have s2 : retry_call num cat resps 2 1 files
      = match generate_bct_messages num cat (resps 1) files, (1 : Nat) with
        | (files', none), _ => (files', none)
        | (files', some e), 0 => (files', some e)
        | (files', some _), _ + 1 => retry_call num cat resps 1 2 files' := rfl
  have s1 : retry_call num cat resps 1 2 files
      = match generate_bct_messages num cat (resps 2) files, (0 : Nat) with
        | (files', none), _ => (files', none)
        | (files', some e), 0 => (files', some e)
        | (files', some _), _ + 1 => retry_call num cat resps 0 3 files' := rfl
  rw [s3, hg0]
  show retry_call num cat resps 2 1 files = (files, some e2)
  rw [s2, hg1]
  show retry_call num cat resps 1 2 files = (files, some e2)
  rw [s1, hg2]

/-- Claim C4: if a category's attempts fail with `GenerationIncomplete`
or `ResponseFormatError` on all three tries, the per-category step is
re-executed exactly up to the fixed maximum of 3 attempts, the last error
propagates (the remaining categories are not processed), and the
file system still holds exactly the files persisted by the categories
successfully processed before the failing one. -/

theorem generate_dataset_retry_three (num : Nat) (resps : CatId → Nat → GenResult)
    (done rest : List CatId) (cat : CatId) (files₀ files₁ : Files)
    (e0 e1 e2 : RunError)
    (h1 : generate_dataset num resps done files₀ = (files₁, none))
    (h2 : (generate_bct_messages num cat (resps cat 0) files₁).2 = some e0)
    (he0 : e0 = .generationIncomplete ∨ e0 = .responseFormatError)
    (h3 : (generate_bct_messages num cat (resps cat 1) files₁).2 = some e1)
    (he1 : e1 = .generationIncomplete ∨ e1 = .responseFormatError)
    (h4 : (generate_bct_messages num cat (resps cat 2) files₁).2 = some e2)
    (he2 : e2 = .generationIncomplete ∨ e2 = .responseFormatError) :
    generate_dataset num resps (done ++ cat :: rest) files₀ = (files₁, some e2) := by
  have hg0 : generate_bct_messages num cat (resps cat 0) files₁ = (files₁, some e0) := by
    have hf := generate_bct_messages_files_eq num cat (resps cat 0) files₁ e0 h2 he0
    cases hmk : generate_bct_messages num cat (resps cat 0) files₁ with
    | mk a b => rw [hmk] at hf h2; simp only at hf h2; rw [hf, h2]
  have hg1 : generate_bct_messages num cat (resps cat 1) files₁ = (files₁, some e1) := by
    have hf := generate_bct_messages_files_eq num cat (resps cat 1) files₁ e1 h3 he1
    cases hmk : generate_bct_messages num cat (resps cat 1) files₁ with
    | mk a b => rw [hmk] at hf h3; simp only at hf h3; rw [hf, h3]
  have hg2 : generate_bct_messages num cat (resps cat 2) files₁ = (files₁, some e2) := by
    have hf := generate_bct_messages_files_eq num cat (resps cat 2) files₁ e2 h4 he2
    cases hmk : generate_bct_messages num cat (resps cat 2) files₁ with
    | mk a b => rw [hmk] at hf h4; simp only at hf h4; rw [hf, h4]
  rw [generate_dataset_append, h1]
  simp only
  rw [generate_dataset, retry_call_three_fail num cat (resps cat) files₁ e0 e1 e2 hg0 hg1 hg2]

/-- Witness for C4: category `1` succeeds with five messages, category
`7` is truncated on all three attempts; the run aborts with the last
error and category `1` keeps its persisted file. -/

theorem generate_dataset_retry_three_witness :
    generate_dataset 5
      (fun c _ => if c = "1".toList
        then GenResult.completed "1. a\n2. b\n3. c\n4. d\n5. e".toList
        else GenResult.truncated)
      (["1".toList] ++ "7".toList :: []) []
      = ([("1".toList,
           writeCSV ["a".toList, "b".toList, "c".toList, "d".toList, "e".toList])],
         some .generationIncomplete) :=
  generate_dataset_retry_three 5 _ ["1".toList] [] "7".toList []
    [("1".toList,
      writeCSV ["a".toList, "b".toList, "c".toList, "d".toList, "e".toList])]
    .generationIncomplete .generationIncomplete .generationIncomplete
    (by decide) (by decide) (Or.inl rfl) (by decide) (Or.inl rfl) (by decide) (Or.inl rfl)

/-- Claim C5: when every expected per-category file is present, the
merger returns the concatenation of the per-category tables in taxonomy
order, every row carrying its source category id, and the row index is
the contiguous sequence 0, 1, 2, … . -/

theorem merge_dataset_concat (cats : List CatId) (files : Files)
    (tbl : CatId → List Char)
    (h : ∀ c ∈ cats, alookup files c = some (tbl c)) :
    merge_dataset cats files
      = .ok (List.enum (cats.flatMap fun c => (read_csv (tbl c)).map fun m => (m, c)))
    ∧ (List.enum (cats.flatMap fun c => (read_csv (tbl c)).map fun m => (m, c))).map Prod.fst
      = List.range (cats.flatMap fun c => (read_csv (tbl c)).map fun m => (m, c)).length := by
  have hrows : ∀ (cs : List CatId), (∀ c ∈ cs, alookup files c = some (tbl c)) →
      mergeRows files cs = .ok (cs.flatMap fun c => (read_csv (tbl c)).map fun m => (m, c)) := by
    intro cs
    induction cs with
    | nil => intro _; rfl
    | cons c cs ih =>
        intro hcs
        rw [mergeRows, hcs c (by simp)]
        rw [ih fun d hd => hcs d (by simp [hd])]
        simp [List.flatMap_cons, Except.map]
  refine ⟨?_, List.enum_map_fst _⟩
  rw [merge_dataset, hrows cats h]
  rfl

/-- Witness for C5 with two categories of one and two messages. -/

theorem merge_dataset_concat_witness :
    merge_dataset ["1".toList, "2".toList]
        [("1".toList, writeCSV ["a".toList]),
         ("2".toList, writeCSV ["b".toList, "c".toList])]
      = .ok (List.enum ((["1".toList, "2".toList] : List CatId).flatMap fun c =>
          (read_csv ((fun c => if c = "1".toList then writeCSV ["a".toList]
            else writeCSV ["b".toList, "c".toList]) c)).map fun m => (m, c)))
    ∧ (List.enum ((["1".toList, "2".toList] : List CatId).flatMap fun c =>
          (read_csv ((fun c => if c = "1".toList then writeCSV ["a".toList]
            else writeCSV ["b".toList, "c".toList]) c)).map fun m => (m, c))).map Prod.fst
      = List.range ((["1".toList, "2".toList] : List CatId).flatMap fun c =>
          (read_csv ((fun c => if c = "1".toList then writeCSV ["a".toList]
            else writeCSV ["b".toList, "c".toList]) c)).map fun m => (m, c)).length :=
  merge_dataset_concat _ _ _ (by decide)

/-- Claim C6: if the file of an expected category id is absent at merge
time (and it is the only absent one, as in spec scenario E), the merger
fails with `MissingCategoryOutput` naming that category id, producing no
merged output. -/

theorem merge_dataset_missing (cats : List CatId) (files : Files) (cat : CatId)
    (h1 : cat ∈ cats) (h2 : alookup files cat = none)
    (h3 : ∀ d ∈ cats, alookup files d = none → d = cat) :
    merge_dataset cats files = .error (.missingCategoryOutput cat) := by
  have hrows : mergeRows files cats = .error (.missingCategoryOutput cat) := by
    induction cats with
    | nil => simp at h1
    | cons d cs ih =>
        by_cases hd : alookup files d = none
        · have : d = cat := h3 d (by simp) hd
          subst this
          rw [mergeRows, hd]
        · obtain ⟨v, hv⟩ : ∃ v, alookup files d = some v := by
            cases hl : alookup files d with
            | none => exact absurd hl hd
            | some v => exact ⟨v, rfl⟩
          have hmem : cat ∈ cs := by
            rcases List.mem_cons.mp h1 with h | h
            · subst h; exact absurd hv (by simp [h2])
            · exact h
          rw [mergeRows, hv]
          rw [ih hmem fun e he => h3 e (by simp [he])]
          rfl
  rw [merge_dataset, hrows]
  rfl

/-- Witness for C6 at spec scenario E: category `7`'s file is absent. -/

theorem merge_dataset_missing_witness :
    merge_dataset ["1".toList, "7".toList] [("1".toList, writeCSV ["x".toList])]
      = .error (.missingCategoryOutput "7".toList) :=
  merge_dataset_missing _ _ _ (by decide) (by decide) (by decide)

lemma format_response_ok_length (num : Nat) (content : List Char)
    (msgs : List (List Char)) (h : format_response num content = .ok msgs) :
    msgs.length = num := by
  simp only [format_response] at h
  by_cases h1 : num < (splitNewlines content).length
  · rw [if_pos h1] at h
    by_cases h2 : (splitNewlines content).any (fun m => m.isEmpty) = true
    · rw [if_pos h2] at h
      exact absurd h (by simp)
    · rw [if_neg h2] at h
      by_cases h3 : (((splitNewlines content).filter headDigit).map lstripNum).length = num
      · rw [if_pos h3] at h
        injection h with h4
        exact h4 ▸ h3
      · rw [if_neg h3] at h
        exact absurd h (by simp)
  · rw [if_neg h1] at h
    by_cases h3 : (((splitNewlines content)).map lstripNum).length = num
    · rw [if_pos h3] at h
      injection h with h4
      exact h4 ▸ h3
    · rw [if_neg h3] at h
      exact absurd h (by simp)

/-- Claim C10: on a successful generation and validation, the
per-category step writes the file and then prints the first five sample
messages unconditionally, so it errors (after the file is already
written) exactly when `num_messages` is below five. -/

theorem generate_bct_messages_sample_oob (num : Nat) (cat : CatId)
    (content : List Char) (msgs : List (List Char)) (files : Files)
    (h : format_response num content = .ok msgs) :
    generate_bct_messages num cat (.completed content) files
      = (write_file files cat (writeCSV msgs),
         if num < 5 then some .indexError else none) := by
  have hlen := format_response_ok_length num content msgs h
  simp only [generate_bct_messages, h, hlen]

/-- Witness for C10: with `num_messages = 2` the step fails with the
out-of-bounds error, the per-category file already written. -/

theorem generate_bct_messages_sample_oob_witness :
    generate_bct_messages 2 "3".toList (.completed "1. a\n2. b".toList) []
      = (write_file [] "3".toList (writeCSV ["a".toList, "b".toList]),
         if 2 < 5 then some .indexError else none) :=
  generate_bct_messages_sample_oob 2 "3".toList "1. a\n2. b".toList
    ["a".toList, "b".toList] [] (by decide)

lemma replFuel_congr (old new : List Char) :
    ∀ (f₁ : Nat) (s : List Char) (f₂ : Nat), s.length ≤ f₁ → s.length ≤ f₂ →
    replFuel old new f₁ s = replFuel old new f₂ s := by
  intro f₁
  induction f₁ with
  | zero =>
      intro s f₂ h1 _
      have : s = [] := List.length_eq_zero.mp (Nat.le_zero.mp h1)
      subst this
      cases f₂ <;> rfl
  | succ g₁ ih =>
      intro s f₂ h1 h2
      cases s with
      | nil => cases f₂ <;> rfl
      | cons c rest =>
          cases f₂ with
          | zero => simp at h2
          | succ g₂ =>
              simp only [replFuel]
              by_cases hp : old ≠ [] ∧ old <+: (c :: rest)
              · rw [if_pos hp, if_pos hp]
                have holen : 1 ≤ old.length := by
                  cases old with
                  | nil => exact absurd rfl hp.1
                  | cons _ _ => simp
                have hd : ((c :: rest).drop old.length).length ≤ g₁ := by
                  simp only [List.length_drop, List.length_cons]
                  simp only [List.length_cons] at h1
                  omega
                have hd2 : ((c :: rest).drop old.length).length ≤ g₂ := by
                  simp only [List.length_drop, List.length_cons]
                  simp only [List.length_cons] at h2
                  omega
                rw [ih _ g₂ hd hd2]
              · rw [if_neg hp, if_neg hp]
                have hr1 : rest.length ≤ g₁ := by
                  simp only [List.length_cons] at h1; omega
                have hr2 : rest.length ≤ g₂ := by
                  simp only [List.length_cons] at h2; omega
                rw [ih _ g₂ hr1 hr2]

lemma pyReplace_nil (old new : List Char) : pyReplace old new [] = [] := rfl

lemma pyReplace_pos (old new s : List Char) (hold : old ≠ []) (hp : old <+: s) :
    pyReplace old new s = new ++ pyReplace old new (s.drop old.length) := by
  cases s with
  | nil => exact absurd (List.prefix_nil.mp hp) hold
  | cons c rest =>
      show replFuel old new (rest.length + 1) (c :: rest) = _
      simp only [replFuel, if_pos (And.intro hold hp)]
      congr 1
      have holen : 1 ≤ old.length := by
        cases old with
        | nil => exact absurd rfl hold
        | cons _ _ => simp
      exact replFuel_congr old new rest.length _ _
        (by simp only [List.length_drop, List.length_cons]; omega)
        (le_refl _)

lemma pyReplace_neg (old new : List Char) (c : Char) (rest : List Char)
    (hp : ¬ old <+: (c :: rest)) :
    pyReplace old new (c :: rest) = c :: pyReplace old new rest := by
  show replFuel old new (rest.length + 1) (c :: rest) = _
  have hcond : ¬ (old ≠ [] ∧ old <+: (c :: rest)) := fun h => hp h.2
  simp only [replFuel, if_neg hcond]
  rfl

lemma pyReplace_consume (old new y : List Char) (hold : old ≠ []) :
    pyReplace old new (old ++ y) = new ++ pyReplace old new y := by
  rw [pyReplace_pos old new _ hold (List.prefix_append old y), List.drop_left]

lemma pyReplace_skip (old new : List Char) :
    ∀ (a y : List Char), (∀ w, w <:+ a → w ≠ [] → ¬ old <+: (w ++ y)) →
    pyReplace old new (a ++ y) = a ++ pyReplace old new y := by
  intro a
  induction a with
  | nil => intro y _; simp
  | cons c a ih =>
      intro y hreg
      have hcon : ¬ old <+: (c :: (a ++ y)) := by
        have := hreg (c :: a) (List.suffix_refl _) (by simp)
        simpa using this
      rw [List.cons_append, pyReplace_neg old new c _ hcon]
      rw [ih y fun w hw hne => hreg w (hw.trans (List.suffix_cons c a)) hne]
      simp

lemma braceToken_ne_nil {t : List Char} (h : braceToken t) : t ≠ [] := by
  obtain ⟨mid, _, rfl⟩ := h
  simp

lemma braceFree_mem {s : List Char} (h : braceFree s = true) {c : Char}
    (hc : c ∈ s) : c ≠ '\x7b' ∧ c ≠ '\x7d' := by
  have := List.all_eq_true.mp h c hc
  simp only [Bool.and_eq_true, Bool.not_eq_true', beq_eq_false_iff_ne] at this
  exact this

lemma mid_append_eq : ∀ (m m' q r : List Char), braceFree m = true →
    braceFree m' = true → m ++ '\x7d' :: q = m' ++ '\x7d' :: r → m = m' := by
  intro m
  induction m with
  | nil =>
      intro m' q r _ hm' heq
      cases m' with
      | nil => rfl
      | cons c' ms' =>
          simp only [List.nil_append, List.cons_append, List.cons.injEq] at heq
          exact absurd heq.1.symm (braceFree_mem hm' (by simp)).2
  | cons c ms ih =>
      intro m' q r hm hm' heq
      cases m' with
      | nil =>
          simp only [List.cons_append, List.nil_append, List.cons.injEq] at heq
          exact absurd heq.1 (braceFree_mem hm (by simp)).2
      | cons c' ms' =>
          simp only [List.cons_append, List.cons.injEq] at heq
          have hms : ms = ms' := ih ms' q r
            (by
              have := hm
              simp only [braceFree, List.all_cons, Bool.and_eq_true] at this
              exact this.2)
            (by
              have := hm'
              simp only [braceFree, List.all_cons, Bool.and_eq_true] at this
              exact this.2)
            heq.2
          rw [heq.1, hms]

lemma braceToken_prefix_eq {t t' r : List Char} (ht : braceToken t)
    (ht' : braceToken t') (hp : t <+: t' ++ r) : t = t' := by
  obtain ⟨m, hm, rfl⟩ := ht
  obtain ⟨m', hm', rfl⟩ := ht'
  obtain ⟨q, hq⟩ := hp
  simp only [List.cons_append, List.append_assoc, List.cons.injEq] at hq
  have : m ++ '\x7d' :: q = m' ++ '\x7d' :: r := by
    simpa using hq.2
  rw [mid_append_eq m m' q r hm hm' this]

lemma no_tok_start_inside_seg {t s : List Char} (ht : braceToken t)
    (hs : '\x7b' ∉ s) (y : List Char) :
    ∀ w, w <:+ s → w ≠ [] → ¬ t <+: (w ++ y) := by
  intro w hw hne hp
  obtain ⟨m, _, rfl⟩ := ht
  cases w with
  | nil => exact hne rfl
  | cons d w' =>
      obtain ⟨q, hq⟩ := hp
      simp only [List.cons_append, List.cons.injEq] at hq
      have hd : d ∈ s := hw.sublist.subset (by simp)
      rw [← hq.1] at hd
      exact hs hd

lemma no_tok_start_inside_tok {t t' : List Char} (ht : braceToken t)
    (ht' : braceToken t') (hne : t ≠ t') (y : List Char) :
    ∀ w, w <:+ t' → w ≠ [] → ¬ t <+: (w ++ y) := by
  intro w hw hwne hp
  by_cases hweq : w = t'
  · subst hweq
    exact hne (braceToken_prefix_eq ht ht' hp)
  · obtain ⟨m', hm', rfl⟩ := ht'
    have hwtail : w <:+ m' ++ ['\x7d'] := by
      rcases List.suffix_cons_iff.mp hw with h | h
      · exact absurd h hweq
      · exact h
    cases w with
    | nil => exact hwne rfl
    | cons d w' =>
        obtain ⟨m, _, rfl⟩ := ht
        obtain ⟨q, hq⟩ := hp
        simp only [List.cons_append, List.cons.injEq] at hq
        have hd : d ∈ m' ++ ['\x7d'] := hwtail.sublist.subset (by simp)
        rw [← hq.1] at hd
        rcases List.mem_append.mp hd with h | h
        · exact (braceFree_mem hm' h).1 rfl
        · simp at h

lemma flattenChunks_cons (ch : Chunk) (d : List Chunk) :
    flattenChunks (ch :: d) = ch.flat ++ flattenChunks d := by
  simp [flattenChunks]

lemma pyReplace_flatten (t v : List Char) (tokens : List (List Char))
    (ht : braceToken t) (htoks : ∀ u ∈ tokens, braceToken u) :
    ∀ d : List Chunk, goodChunks tokens d →
    pyReplace t v (flattenChunks d) = flattenChunks (d.map (substChunk t v)) := by
  intro d
  induction d with
  | nil => intro _; rfl
  | cons ch d ih =>
      intro hd
      have hch : chunkGood tokens ch = true := hd ch (by simp)
      have hd' : goodChunks tokens d := fun c hc => hd c (by simp [hc])
      rw [flattenChunks_cons, List.map_cons, flattenChunks_cons]
      cases ch with
      | seg s =>
          have hs : '\x7b' ∉ s := by
            simp only [chunkGood] at hch
            exact of_decide_eq_true hch
          rw [show Chunk.flat (Chunk.seg s) = s from rfl]
          rw [pyReplace_skip t v s _ (no_tok_start_inside_seg ht hs _)]
          rw [ih hd']
          rfl
      | tok u =>
          have hu : u ∈ tokens := by
            simp only [chunkGood] at hch
            exact of_decide_eq_true hch
          have htu : braceToken u := htoks u hu
          by_cases hut : u = t
          · subst hut
            rw [show Chunk.flat (Chunk.tok u) = u from rfl]
            rw [pyReplace_consume u v _ (braceToken_ne_nil ht)]
            rw [ih hd']
            simp [substChunk, Chunk.flat]
          · rw [show Chunk.flat (Chunk.tok u) = u from rfl]
            rw [pyReplace_skip t v u _
              (no_tok_start_inside_tok ht htu (fun h => hut h.symm) _)]
            rw [ih hd']
            simp [substChunk, Chunk.flat, hut]

lemma goodChunks_substChunk {tokens : List (List Char)} {d : List Chunk}
    (hd : goodChunks tokens d) {t v : List Char} (hv : braceFree v = true) :
    goodChunks tokens (d.map (substChunk t v)) := by
  intro ch hch
  obtain ⟨ch₀, hch₀, rfl⟩ := List.mem_map.mp hch
  have h₀ := hd ch₀ hch₀
  cases ch₀ with
  | seg s => exact h₀
  | tok u =>
      by_cases hut : u = t
      · simp only [substChunk, if_pos hut, chunkGood]
        have : '\x7b' ∉ v := fun hmem => (braceFree_mem hv hmem).1 rfl
        exact decide_eq_true this
      · simpa only [substChunk, if_neg hut] using h₀

lemma substituteAll_flatten (tokens : List (List Char))
    (htoks : ∀ u ∈ tokens, braceToken u) :
    ∀ (attrs : List (List Char × List Char)) (d : List Chunk),
    (∀ p ∈ attrs, braceToken p.1 ∧ braceFree p.2 = true) → goodChunks tokens d →
    substituteAll attrs (flattenChunks d) = flattenChunks (applyChunks attrs d) := by
  intro attrs
  induction attrs with
  | nil => intro d _ _; rfl
  | cons p attrs ih =>
      intro d hattrs hd
      obtain ⟨t, v⟩ := p
      have hp := hattrs (t, v) (by simp)
      show substituteAll attrs (pyReplace t v (flattenChunks d))
        = flattenChunks (applyChunks attrs (d.map (substChunk t v)))
      rw [pyReplace_flatten t v tokens hp.1 htoks d hd]
      exact ih (d.map (substChunk t v))
        (fun q hq => hattrs q (by simp [hq]))
        (goodChunks_substChunk hd hp.2)

lemma chunkSubstAll_nil : chunkSubstAll [] = fun ch => ch :=
  funext fun _ => rfl

lemma applyChunks_eq_map (attrs : List (List Char × List Char)) :
    ∀ d : List Chunk, applyChunks attrs d = d.map (chunkSubstAll attrs) := by
  induction attrs with
  | nil =>
      intro d
      show d = d.map (chunkSubstAll [])
      rw [chunkSubstAll_nil]
      exact (List.map_id' d).symm
  | cons p attrs ih =>
      intro d
      show applyChunks attrs (d.map (substChunk p.1 p.2)) = _
      rw [ih (d.map (substChunk p.1 p.2)), List.map_map]
      rfl

lemma chunkSubstAll_seg (attrs : List (List Char × List Char)) (s : List Char) :
    chunkSubstAll attrs (.seg s) = .seg s := by
  induction attrs with
  | nil => rfl
  | cons p attrs ih => exact ih

lemma chunkSubstAll_tok (attrs : List (List Char × List Char)) (u : List Char) :
    chunkSubstAll attrs (.tok u) = resolveChunk attrs (.tok u) := by
  induction attrs with
  | nil => rfl
  | cons p attrs ih =>
      obtain ⟨t, v⟩ := p
      by_cases hut : u = t
      · show chunkSubstAll attrs (substChunk t v (.tok u)) = _
        simp only [substChunk, if_pos hut, chunkSubstAll_seg,
          resolveChunk, alookup, if_pos hut]
      · show chunkSubstAll attrs (substChunk t v (.tok u)) = _
        simp only [substChunk, if_neg hut]
        rw [ih]
        simp only [resolveChunk, alookup, if_neg hut]

lemma chunkSubstAll_eq_resolve (attrs : List (List Char × List Char)) (ch : Chunk) :
    chunkSubstAll attrs ch = resolveChunk attrs ch := by
  cases ch with
  | seg s => rw [chunkSubstAll_seg]; rfl
  | tok u => exact chunkSubstAll_tok attrs u

lemma alookup_some_mem {α : Type} :
    ∀ (attrs : List (List Char × α)) (u : List Char) (v : α),
    alookup attrs u = some v → (u, v) ∈ attrs := by
  intro attrs
  induction attrs with
  | nil => intro u v h; simp [alookup] at h
  | cons p attrs ih =>
      intro u v h
      obtain ⟨k, w⟩ := p
      by_cases hk : u = k
      · rw [alookup, if_pos hk] at h
        injection h with h'
        simp [hk, h']
      · rw [alookup, if_neg hk] at h
        simp [ih u v h]

lemma alookup_of_mem {α : Type} :
    ∀ (attrs : List (List Char × α)), (attrs.map Prod.fst).Nodup →
    ∀ (u : List Char) (v : α), (u, v) ∈ attrs → alookup attrs u = some v := by
  intro attrs
  induction attrs with
  | nil => intro _ u v h; simp at h
  | cons p attrs ih =>
      intro hnd u v h
      obtain ⟨k, w⟩ := p
      simp only [List.map_cons, List.nodup_cons] at hnd
      rcases List.mem_cons.mp h with h1 | h1
      · injection h1 with h2 h3
        subst h2; subst h3
        simp [alookup]
      · by_cases hk : u = k
        · subst hk
          exact absurd (List.mem_map.mpr ⟨(u, v), h1, rfl⟩) hnd.1
        · rw [alookup, if_neg hk]
          exact ih hnd.2 u v h1

lemma alookup_none_iff {α : Type} :
    ∀ (attrs : List (List Char × α)) (u : List Char),
    alookup attrs u = none ↔ u ∉ attrs.map Prod.fst := by
  intro attrs
  induction attrs with
  | nil => intro u; simp [alookup]
  | cons p attrs ih =>
      intro u
      obtain ⟨k, w⟩ := p
      by_cases hk : u = k
      · subst hk
        rw [alookup, if_pos rfl]
        constructor
        · intro h
          exact absurd h (Option.some_ne_none w)
        · intro h
          exact absurd (List.mem_map.mpr ⟨(u, w), List.mem_cons_self _ _, rfl⟩) h
      · rw [alookup, if_neg hk]
        rw [ih u, List.map_cons]
        constructor
        · intro h hmem
          rcases List.mem_cons.mp hmem with h1 | h1
          · exact hk h1
          · exact h h1
        · intro h hmem
          exact h (List.mem_cons_of_mem _ hmem)

lemma alookup_perm {α : Type} (attrs attrs' : List (List Char × α))
    (hperm : attrs.Perm attrs') (hnd : (attrs.map Prod.fst).Nodup)
    (u : List Char) : alookup attrs u = alookup attrs' u := by
  have hnd' : (attrs'.map Prod.fst).Nodup := ((hperm.map Prod.fst).nodup_iff).mp hnd
  cases hl : alookup attrs u with
  | some v =>
      have hmem := alookup_some_mem attrs u v hl
      exact (alookup_of_mem attrs' hnd' u v (hperm.mem_iff.mp hmem)).symm
  | none =>
      have hni := (alookup_none_iff attrs u).mp hl
      have : u ∉ attrs'.map Prod.fst := fun hmem =>
        hni ((hperm.map Prod.fst).mem_iff.mpr hmem)
      exact ((alookup_none_iff attrs' u).mpr this).symm

lemma resolveChunk_perm (attrs attrs' : List (List Char × List Char))
    (hperm : attrs.Perm attrs') (hnd : (attrs.map Prod.fst).Nodup) :
    ∀ ch, resolveChunk attrs ch = resolveChunk attrs' ch := by
  intro ch
  cases ch with
  | seg s => rfl
  | tok u =>
      show (match alookup attrs u with
            | some v => Chunk.seg v
            | none => Chunk.tok u) = _
      rw [alookup_perm attrs attrs' hperm hnd u]
      rfl

lemma substituteAll_resolved (attrs : List (List Char × List Char))
    (d : List Chunk)
    (hattrs : ∀ p ∈ attrs, braceToken p.1 ∧ braceFree p.2 = true)
    (hd : goodChunks (attrs.map Prod.fst) d) :
    substituteAll attrs (flattenChunks d)
      = flattenChunks (d.map (resolveChunk attrs)) := by
  have htoks : ∀ u ∈ attrs.map Prod.fst, braceToken u := by
    intro u hu
    obtain ⟨p, hp, rfl⟩ := List.mem_map.mp hu
    exact (hattrs p hp).1
  rw [substituteAll_flatten (attrs.map Prod.fst) htoks attrs d hattrs hd]
  rw [applyChunks_eq_map]
  exact congrArg flattenChunks
    (List.map_congr_left fun ch _ => chunkSubstAll_eq_resolve attrs ch)

/-- Claim C8 as amended: provided every replacement value is free of
brace characters and each prompt decomposes into brace-free segments and
occurrences of the (pairwise distinct, brace-delimited) placeholder
tokens, the substitution operation replaces every placeholder occurrence
in both prompts by its mapped value, and the result is unchanged when
the mapping is substituted in any other order. -/

theorem attribute_substitution (attrs attrs' : List (List Char × List Char))
    (d1 d2 : List Chunk)
    (hperm : attrs.Perm attrs')
    (hattrs : ∀ p ∈ attrs, braceToken p.1 ∧ braceFree p.2 = true)
    (hnodup : (attrs.map Prod.fst).Nodup)
    (hd1 : goodChunks (attrs.map Prod.fst) d1)
    (hd2 : goodChunks (attrs.map Prod.fst) d2) :
    substitutePrompts attrs (flattenChunks d1, flattenChunks d2)
        = (flattenChunks (d1.map (resolveChunk attrs)),
           flattenChunks (d2.map (resolveChunk attrs)))
    ∧ substitutePrompts attrs' (flattenChunks d1, flattenChunks d2)
        = substitutePrompts attrs (flattenChunks d1, flattenChunks d2) := by
  have hattrs' : ∀ p ∈ attrs', braceToken p.1 ∧ braceFree p.2 = true :=
    fun p hp => hattrs p (hperm.mem_iff.mpr hp)
  have htokseq : ∀ u, u ∈ attrs.map Prod.fst ↔ u ∈ attrs'.map Prod.fst :=
    fun u => (hperm.map Prod.fst).mem_iff
  have hd1' : goodChunks (attrs'.map Prod.fst) d1 := by
    intro ch hch
    have := hd1 ch hch
    cases ch with
    | seg s => exact this
    | tok u =>
        simp only [chunkGood] at this ⊢
        exact decide_eq_true ((htokseq u).mp (of_decide_eq_true this))
  have hd2' : goodChunks (attrs'.map Prod.fst) d2 := by
    intro ch hch
    have := hd2 ch hch
    cases ch with
    | seg s => exact this
    | tok u =>
        simp only [chunkGood] at this ⊢
        exact decide_eq_true ((htokseq u).mp (of_decide_eq_true this))
  constructor
  · show (substituteAll attrs (flattenChunks d1), substituteAll attrs (flattenChunks d2)) = _
    rw [substituteAll_resolved attrs d1 hattrs hd1,
        substituteAll_resolved attrs d2 hattrs hd2]
  · show (substituteAll attrs' (flattenChunks d1), substituteAll attrs' (flattenChunks d2))
      = (substituteAll attrs (flattenChunks d1), substituteAll attrs (flattenChunks d2))
    rw [substituteAll_resolved attrs d1 hattrs hd1,
        substituteAll_resolved attrs d2 hattrs hd2,
        substituteAll_resolved attrs' d1 hattrs' hd1',
        substituteAll_resolved attrs' d2 hattrs' hd2']
    have hres : ∀ ch, resolveChunk attrs' ch = resolveChunk attrs ch :=
      fun ch => (resolveChunk_perm attrs attrs' hperm hnodup ch).symm
    rw [List.map_congr_left fun ch _ => hres ch,
        List.map_congr_left fun ch _ => hres ch]

/-- Counterexample to C8 as stated: with the code's own mapping, where
the label's replacement value happens to contain the examples
placeholder, the token introduced by the earlier substitution is
rewritten by a later one, so the result is NOT independent of the order
of substitution (and the label occurrence does not end up replaced by
its mapped value). -/

theorem attribute_prompts_order_cex :
    (attribute_prompts 1 "{bct_examples}".toList "D".toList "E".toList
        ("{bct_label}".toList, [])).1
      = "E".toList
    ∧ substituteAll
        (List.reverse
          [("{num_messages}".toList, "1".toList),
           ("{bct_label}".toList, "{bct_examples}".toList),
           ("{bct_definition}".toList, "D".toList),
           ("{bct_examples}".toList, "E".toList)])
        "{bct_label}".toList
      ≠ "E".toList := by
  constructor
  · decide
  · decide

/-- Witness for amended C8: two placeholders substituted in both orders
over a two-chunk system prompt and a three-chunk user prompt. -/

theorem attribute_substitution_witness :
    substitutePrompts
        [("{bct_label}".toList, "X".toList), ("{num_messages}".toList, "3".toList)]
        (flattenChunks [Chunk.seg "Hi ".toList, Chunk.tok "{bct_label}".toList],
         flattenChunks [Chunk.seg "Make ".toList, Chunk.tok "{num_messages}".toList,
           Chunk.seg " items".toList])
      = (flattenChunks ([Chunk.seg "Hi ".toList, Chunk.tok "{bct_label}".toList].map
           (resolveChunk [("{bct_label}".toList, "X".toList),
             ("{num_messages}".toList, "3".toList)])),
         flattenChunks ([Chunk.seg "Make ".toList, Chunk.tok "{num_messages}".toList,
           Chunk.seg " items".toList].map
           (resolveChunk [("{bct_label}".toList, "X".toList),
             ("{num_messages}".toList, "3".toList)])))
    ∧ substitutePrompts
        [("{num_messages}".toList, "3".toList), ("{bct_label}".toList, "X".toList)]
        (flattenChunks [Chunk.seg "Hi ".toList, Chunk.tok "{bct_label}".toList],
         flattenChunks [Chunk.seg "Make ".toList, Chunk.tok "{num_messages}".toList,
           Chunk.seg " items".toList])
      = substitutePrompts
          [("{bct_label}".toList, "X".toList), ("{num_messages}".toList, "3".toList)]
          (flattenChunks [Chunk.seg "Hi ".toList, Chunk.tok "{bct_label}".toList],
           flattenChunks [Chunk.seg "Make ".toList, Chunk.tok "{num_messages}".toList,
             Chunk.seg " items".toList]) :=
  attribute_substitution
    [("{bct_label}".toList, "X".toList), ("{num_messages}".toList, "3".toList)]
    [("{num_messages}".toList, "3".toList), ("{bct_label}".toList, "X".toList)]
    [Chunk.seg "Hi ".toList, Chunk.tok "{bct_label}".toList]
    [Chunk.seg "Make ".toList, Chunk.tok "{num_messages}".toList,
      Chunk.seg " items".toList]
    (List.Perm.swap _ _ _)
    (by
      intro p hp
      simp only [List.mem_cons, List.not_mem_nil, or_false] at hp
      rcases hp with h | h
      · subst h
        exact ⟨⟨"bct_label".toList, by decide, by decide⟩, by decide⟩
      · subst h
        exact ⟨⟨"num_messages".toList, by decide, by decide⟩, by decide⟩)
    (by decide) (by decide) (by decide)

end CreateDataset

